import Mathlib

/-!
Shallow embedding of the forkcordion AppleSingle decoder
(src/applesingle.rs, src/archive.rs, src/date.rs, src/finder.rs,
src/io.rs, src/lib.rs) and proofs about the spec's claims.

Byte sources are modelled as `List Nat` (each element a byte value) and a
read cursor; stateful Rust readers become explicit state-passing functions
returning `Except IOError _`, with `std::io` semantics modelled faithfully:
`read_exact` fails when fewer bytes remain, while `io::copy` /
`read_to_end` on a `Take` simply stop at end of input.
-/

namespace Forkcordion

/-- A byte; arithmetic below only ever assembles big-endian words. -/
abbrev Byte := Nat

/-- Big-endian interpretation of a byte list (as in deku's `endian = big`
field decoding and `u16::from_be_bytes` / `u32::from_be_bytes`). -/
def beNat (l : List Byte) : Nat := l.foldl (fun acc b => acc * 256 + b) 0

/-- Reinterpret a 32-bit unsigned value as the signed `i32` it encodes. -/
def toSigned32 (n : Nat) : Int :=
  if n < 2 ^ 31 then (n : Int) else (n : Int) - 2 ^ 32

/-- Reinterpret a 16-bit unsigned value as the signed `i16` it encodes. -/
def toSigned16 (n : Nat) : Int :=
  if n < 2 ^ 15 then (n : Int) else (n : Int) - 2 ^ 16

/-- The `std::io` error kinds the decoder can produce:
`unexpectedEof` from `read_exact` on a short source, `unsupported` from
`CountingReader::skip_to`, `formatMismatch` for a deku magic-byte mismatch
(`DekuError` converted to `io::Error`), `other` for `ErrorKind::Other`. -/
inductive IOError where
  | unexpectedEof
  | unsupported
  | formatMismatch
  | other
  deriving DecidableEq, Repr

/-- `io::CountingReader` (src/io.rs): a byte source with a cumulative
count of the bytes read so far.  The underlying source is the suffix of
`stream` starting at index `count`. -/
structure CountingReader where
  stream : List Byte
  count : Nat
  deriving DecidableEq, Repr

namespace CountingReader

/-- The bytes not yet consumed. -/
def remaining (r : CountingReader) : List Byte := r.stream.drop r.count

/-- Read up to `n` bytes (the semantics of draining `self.take(n)` with
`io::copy` or `read_to_end`: stops early at end of input, no error). -/
def readUpTo (r : CountingReader) (n : Nat) : List Byte × CountingReader :=
  let bytes := (r.stream.drop r.count).take n
  (bytes, { r with count := r.count + bytes.length })

/-- `Read::read_exact` for `n` bytes: errors with `UnexpectedEof` when
fewer than `n` bytes remain. -/
def readExact (r : CountingReader) (n : Nat) :
    Except IOError (List Byte × CountingReader) :=
  if r.count + n ≤ r.stream.length then
    .ok ((r.stream.drop r.count).take n, { r with count := r.count + n })
  else
    .error .unexpectedEof

/-- `CountingReader::skip_to` (src/io.rs:15-27): errors with
`Unsupported` if the cursor already passed `offset`; otherwise drains
`offset - count` bytes from `self.take(diff)` into `sink()` via
`io::copy` (which stops silently at end of input). -/
def skip_to (r : CountingReader) (offset : Nat) : Except IOError CountingReader :=
  if offset < r.count then
    .error .unsupported
  else
    .ok (r.readUpTo (offset - r.count)).2

end CountingReader

/-- `applesingle::Segment` (src/applesingle.rs:65-71): one 12-byte
big-endian descriptor. -/
structure Segment where
  id : Nat
  offset : Nat
  len : Nat
  deriving DecidableEq, Repr

/-- `lib.rs` `Entry`: same shape as `Segment`; `Segment`'s `Into<Entry>`
is field-for-field. -/
structure Entry where
  id : Nat
  offset : Nat
  len : Nat
  deriving DecidableEq, Repr

def Segment.toEntry (s : Segment) : Entry := ⟨s.id, s.offset, s.len⟩

/-- Decode one 12-byte descriptor (deku: big-endian u32 id, offset, len). -/
def decodeSegment (b : List Byte) : Segment :=
  { id := beNat (b.take 4)
    offset := beNat ((b.drop 4).take 4)
    len := beNat ((b.drop 8).take 4) }

/-- `applesingle::EntryType` (src/applesingle.rs:41-56). -/
inductive EntryType where
  | dataFork
  | resourceFork
  | realName
  | comment
  | iconBW
  | iconColor
  | fileDates
  | finderInfo
  | macintoshFileInfo
  | proDOSFileInfo
  | msDOSFileInfo
  | afpShortName
  | afpFileInfo
  | afpDirectoryID
  deriving DecidableEq, Repr

/-- `TryFromPrimitive` for `EntryType`: `DataFork = 1`, consecutive
values, with `FileDates = 8` restarting the numbering. -/
def EntryType.try_from (n : Nat) : Option EntryType :=
  match n with
  | 1 => some .dataFork
  | 2 => some .resourceFork
  | 3 => some .realName
  | 4 => some .comment
  | 5 => some .iconBW
  | 6 => some .iconColor
  | 8 => some .fileDates
  | 9 => some .finderInfo
  | 10 => some .macintoshFileInfo
  | 11 => some .proDOSFileInfo
  | 12 => some .msDOSFileInfo
  | 13 => some .afpShortName
  | 14 => some .afpFileInfo
  | 15 => some .afpDirectoryID
  | _ => none

/-- The discriminant value of each `EntryType` (`IntoPrimitive`). -/
def EntryType.code : EntryType → Nat
  | .dataFork => 1
  | .resourceFork => 2
  | .realName => 3
  | .comment => 4
  | .iconBW => 5
  | .iconColor => 6
  | .fileDates => 8
  | .finderInfo => 9
  | .macintoshFileInfo => 10
  | .proDOSFileInfo => 11
  | .msDOSFileInfo => 12
  | .afpShortName => 13
  | .afpFileInfo => 14
  | .afpDirectoryID => 15

/-- `Segment::entry_type` (src/applesingle.rs:74-76). -/
def Segment.entry_type (s : Segment) : Option EntryType :=
  EntryType.try_from s.id

/-! ## Finder metadata (src/finder.rs)

`FinderFlags(u16)` views its word through `bitvec`'s `Lsb0` ordering:
`inner()[i]` is the bit of weight `2 ^ i`, i.e. `Nat.testBit w i`, and
`inner()[1..4].load_be()` extracts the bits of weight 2,4,8 with the
higher element bit more significant, i.e. `(w >>> 1) &&& 7`. -/

namespace FinderFlags

def is_on_desktop (w : Nat) : Bool := w.testBit 0

def color (w : Nat) : Nat := (w >>> 1) &&& 7

def color_reserved (w : Nat) : Bool := w.testBit 4

def requires_switch_launch (w : Nat) : Bool := w.testBit 5

def is_shared (w : Nat) : Bool := w.testBit 6

def has_no_inits (w : Nat) : Bool := w.testBit 7

def has_been_inited (w : Nat) : Bool := w.testBit 8

def has_custom_icon (w : Nat) : Bool := w.testBit 10

def is_stationery (w : Nat) : Bool := w.testBit 11

def name_locked (w : Nat) : Bool := w.testBit 12

def has_bundle (w : Nat) : Bool := w.testBit 13

def is_invisible (w : Nat) : Bool := w.testBit 14

def is_alias (w : Nat) : Bool := w.testBit 15

end FinderFlags

/-- `finder::FinderInfo` decoded from its 16-byte big-endian layout:
4-byte type code, 4-byte creator code, 2-byte flags word, 2+2-byte
point, 2-byte folder id (src/finder.rs:22-39). -/
structure FinderInfo where
  file_type : List Byte
  creator : List Byte
  flags : Nat
  location_v : Int
  location_h : Int
  folder : Nat
  deriving DecidableEq, Repr

def FinderInfo.decode (b : List Byte) : FinderInfo :=
  { file_type := b.take 4
    creator := (b.drop 4).take 4
    flags := beNat ((b.drop 8).take 2)
    location_v := toSigned16 (beNat ((b.drop 10).take 2))
    location_h := toSigned16 (beNat ((b.drop 12).take 2))
    folder := beNat ((b.drop 14).take 2) }

/-- `finder::MacInfo`: raw 32-bit big-endian word; `is_locked` is bit 0,
`is_protected` bit 1 under the `Lsb0` view (src/finder.rs:242-261). -/
def MacInfo.is_locked (w : Nat) : Bool := w.testBit 0

def MacInfo.is_protected (w : Nat) : Bool := w.testBit 1

/-! ## Dates (src/date.rs) -/

/-- `date::MAC_EPOCH`: the Unix timestamp of 2000-01-01T00:00:00Z. -/
def MAC_EPOCH : Int := 946684800

/-- `Date::as_unix_timestamp`: the stored signed 32-bit count of seconds
plus the Mac epoch. -/
def Date.as_unix_timestamp (d : Int) : Int := d + MAC_EPOCH

/-- `date::Dates`: four raw signed 32-bit Mac timestamps. -/
structure Dates where
  create : Int
  modify : Int
  backup : Int
  access : Int
  deriving DecidableEq, Repr

/-- Decode `Dates` from its 16-byte layout: create, modify, backup,
access, each a big-endian `i32` (src/date.rs:59-67). -/
def Dates.decode (b : List Byte) : Dates :=
  { create := toSigned32 (beNat (b.take 4))
    modify := toSigned32 (beNat ((b.drop 4).take 4))
    backup := toSigned32 (beNat ((b.drop 8).take 4))
    access := toSigned32 (beNat ((b.drop 12).take 4)) }

/-- A calendar instant in the proleptic Gregorian calendar, UTC. -/
structure DateTime where
  year : Int
  month : Int
  day : Int
  hour : Int
  minute : Int
  second : Int
  deriving DecidableEq, Repr

/-- Civil date from a count of days since 1970-01-01 (standard
era-decomposition of the proleptic Gregorian calendar). -/
def civilFromDays (z0 : Int) : Int × Int × Int :=
  let z := z0 + 719468
  let era := Int.fdiv z 146097
  let doe := z - era * 146097
  let yoe := Int.fdiv (doe - Int.fdiv doe 1460 + Int.fdiv doe 36524 - Int.fdiv doe 146096) 365
  let y := yoe + era * 400
  let doy := doe - (365 * yoe + Int.fdiv yoe 4 - Int.fdiv yoe 100)
  let mp := Int.fdiv (5 * doy + 2) 153
  let d := doy - Int.fdiv (153 * mp + 2) 5 + 1
  let m := mp + (if mp < 10 then 3 else -9)
  (y + (if m ≤ 2 then 1 else 0), m, d)

/-- Calendar instant of a Unix timestamp (UTC). -/
def civilFromUnix (ts : Int) : DateTime :=
  let days := Int.fdiv ts 86400
  let sod := ts - days * 86400
  let ymd := civilFromDays days
  { year := ymd.1
    month := ymd.2.1
    day := ymd.2.2
    hour := Int.fdiv sod 3600
    minute := Int.fdiv (sod - Int.fdiv sod 3600 * 3600) 60
    second := sod % 60 }

/-- Lower bound of the external time crate's
`OffsetDateTime::from_unix_timestamp` (the instant -9999-01-01T00:00:00Z,
per the crate's documented default range). -/
def UNIX_TIMESTAMP_MIN : Int := -377705116800

/-- Upper bound of the external time crate's
`OffsetDateTime::from_unix_timestamp` (the instant 9999-12-31T23:59:59Z,
per the crate's documented default range). -/
def UNIX_TIMESTAMP_MAX : Int := 253402300799

/-- `TryInto<OffsetDateTime> for &Date` (src/date.rs:20-25): delegates to
the time crate's `from_unix_timestamp`, which fails outside its
representable range and otherwise denotes that calendar instant. -/
def Date.try_into_datetime (d : Int) : Option DateTime :=
  let ts := Date.as_unix_timestamp d
  if UNIX_TIMESTAMP_MIN ≤ ts ∧ ts ≤ UNIX_TIMESTAMP_MAX then
    some (civilFromUnix ts)
  else
    none

/-! ## Segment table (src/applesingle.rs:133-146, 198-204)

`BTreeMap<u32, Segment>` modelled as an association list strictly sorted
by `id`; `insert` replaces any existing entry with the same key, and
`values()` yields entries in ascending-id order. -/

/-- `BTreeMap::insert` keyed on `segment.id`. -/
def insertSeg : List Segment → Segment → List Segment
  | [], s => [s]
  | t :: ts, s =>
    if s.id < t.id then s :: t :: ts
    else if s.id = t.id then s :: ts
    else t :: insertSeg ts s

/-- `BTreeMap::get` by id. -/
def lookupId : List Segment → Nat → Option Segment
  | [], _ => none
  | t :: ts, i => if t.id = i then some t else lookupId ts i

/-- Insert one element into an offset-sorted list, after all elements of
smaller-or-equal offset (one step of a stable sort). -/
def insertByOffset (x : Segment) : List Segment → List Segment
  | [] => [x]
  | y :: ys => if y.offset ≤ x.offset then y :: insertByOffset x ys else x :: y :: ys

/-- `ArchiveHeader::segments_by_offset`: the table's values (ascending-id
order) stably sorted by ascending offset. -/
def segments_by_offset (table : List Segment) : List Segment :=
  table.foldl (fun acc x => insertByOffset x acc) []

/-! ## Header reader (src/applesingle.rs:174-223) -/

/-- The 8 bytes checked by deku's `magic` attribute on
`AppleSingleHeader`: magic `0x00051600` followed by version
`0x00020000`. -/
def MAGICVER : List Byte := [0x00, 0x05, 0x16, 0x00, 0x00, 0x02, 0x00, 0x00]

/-- `AppleSingleArchiveReader`: counting reader plus the segment table
built by `read_header`. -/
structure ArchiveReader where
  reader : CountingReader
  segments : List Segment
  deriving DecidableEq, Repr

/-- `AppleSingleArchiveReader::read_segment`: `read_exact` 12 bytes,
decode a descriptor, insert it into the table keyed by id. -/
def read_segment (a : ArchiveReader) : Except IOError ArchiveReader :=
  match a.reader.readExact 12 with
  | .error e => .error e
  | .ok (bytes, r) =>
    .ok { reader := r, segments := insertSeg a.segments (decodeSegment bytes) }

/-- The `for _ in 0..n_segments { self.read_segment()? }` loop. -/
def read_segments : Nat → ArchiveReader → Except IOError ArchiveReader
  | 0, a => .ok a
  | n + 1, a =>
    match read_segment a with
    | .error e => .error e
    | .ok a' => read_segments n a'

/-- `AppleSingleArchiveReader::read_header`: `read_exact` a 26-byte
block, decode it with deku (8 magic/version bytes checked against
`MAGICVER`, 16 padding bytes skipped, big-endian u16 segment count),
then read that many descriptors. -/
def read_header (a : ArchiveReader) : Except IOError ArchiveReader :=
  match a.reader.readExact 26 with
  | .error e => .error e
  | .ok (bytes, r) =>
    if bytes.take 8 = MAGICVER then
      read_segments (beNat ((bytes.drop 24).take 2)) { a with reader := r }
    else
      .error .formatMismatch

/-- `AppleSingleArchiveReader::streaming` / `::seekable`: wrap the source
in a fresh counting reader and read the header (both constructors run
identical code). -/
def streaming (s : List Byte) : Except IOError ArchiveReader :=
  read_header { reader := { stream := s, count := 0 }, segments := [] }

/-! ## Segment dispatcher (src/applesingle.rs:86-123) -/

/-- `applesingle::ArchiveMember`. -/
inductive ArchiveMember where
  | dataFork (e : Entry)
  | resourceFork (e : Entry)
  | realName (b : List Byte)
  | comment (b : List Byte)
  | fileDates (d : Dates)
  | finderInfo (fi : FinderInfo)
  | macInfo (m : Nat)
  | other (e : Entry)
  deriving DecidableEq, Repr

/-- `Segment::wrap`, applied to the byte list `avail` that the bounded
(`take`-limited) segment reader can still yield.  Returns the decoded
member together with the number of bytes it consumed from the bounded
reader: `read_to_end` collects everything available, `read_exact` takes
a fixed count or fails, fork and unrecognized segments read nothing. -/
def Segment.wrap (s : Segment) (avail : List Byte) :
    Except IOError (ArchiveMember × Nat) :=
  match s.entry_type with
  | some .realName => .ok (.realName avail, avail.length)
  | some .comment => .ok (.comment avail, avail.length)
  | some .finderInfo =>
    if 16 ≤ avail.length then
      .ok (.finderInfo (FinderInfo.decode (avail.take 16)), 16)
    else
      .error .unexpectedEof
  | some .fileDates =>
    if 16 ≤ avail.length then
      .ok (.fileDates (Dates.decode (avail.take 16)), 16)
    else
      .error .unexpectedEof
  | some .macintoshFileInfo =>
    if 4 ≤ avail.length then
      .ok (.macInfo (beNat (avail.take 4)), 4)
    else
      .error .unexpectedEof
  | some .resourceFork => .ok (.resourceFork s.toEntry, 0)
  | some .dataFork => .ok (.dataFork s.toEntry, 0)
  | _ => .ok (.other s.toEntry, 0)

/-! ## Archive builder (src/archive.rs:17-106) -/

/-- The metadata accumulated by `ArchiveBuilder` (shared by the seekable
builder, which embeds one). -/
structure MetaBuilder where
  format : Option String
  finf : Option FinderInfo
  minf : Option Nat
  date : Option Dates
  name : Option (List Byte)
  comment : Option (List Byte)
  deriving DecidableEq, Repr

/-- `ArchiveBuilder::new`: all fields absent. -/
def MetaBuilder.new : MetaBuilder :=
  { format := none, finf := none, minf := none, date := none,
    name := none, comment := none }

/-- `archive::Archive`: mandatory format tag plus optional metadata. -/
structure Archive where
  format : String
  finf : Option FinderInfo
  minf : Option Nat
  date : Option Dates
  name : Option (List Byte)
  comment : Option (List Byte)
  deriving DecidableEq, Repr

/-- `ArchiveBuilder::build`: `None` when the format tag was never set. -/
def MetaBuilder.build (b : MetaBuilder) : Option Archive :=
  match b.format with
  | some f =>
    some { format := f, finf := b.finf, minf := b.minf, date := b.date,
           name := b.name, comment := b.comment }
  | none => none

/-- The builder state both engines start their segment loop with:
`Archive::builder()` followed by the unconditional
`builder.format(FORMAT_NAME.into())`. -/
def initBuilder : MetaBuilder :=
  { format := some "AppleSingle", finf := none, minf := none, date := none,
    name := none, comment := none }

/-- `applesingle::Fork`: the classification offered to the streaming
handler. -/
inductive Fork where
  | data
  | rsrc
  | other (id : Nat)
  deriving DecidableEq, Repr

/-! ## Streaming traversal engine (src/applesingle.rs:263-316)

A `Handler` is modelled by the predicate `h : Fork → Bool` telling
whether `handler.sink(fork)` returns a sink; the bytes copied into sinks
are accumulated in an ordered log. -/

/-- The in-flight state of `parse`: the reader cursor, the builder, and
the (fork, bytes) pairs copied into handler sinks so far. -/
structure StreamState where
  count : Nat
  builder : MetaBuilder
  log : List (Fork × List Byte)
  deriving DecidableEq, Repr

/-- One iteration of the `for segment in segments` loop of `parse`:
`SegmentReader::from_segment` (skip to the segment's offset, bound the
reader to its length), `Segment::wrap`, then either copy the fork
payload into the handler's sink (when one is offered) or fold the
metadata member into the builder. -/
def streamStep (s : List Byte) (h : Fork → Bool) (st : StreamState)
    (seg : Segment) : Except IOError StreamState :=
  match CountingReader.skip_to { stream := s, count := st.count } seg.offset with
  | .error e => .error e
  | .ok r =>
    let avail := (r.stream.drop r.count).take seg.len
    match seg.wrap avail with
    | .error e => .error e
    | .ok (member, used) =>
      match member with
      | .resourceFork _ =>
        if h .rsrc then
          .ok { st with count := r.count + avail.length,
                        log := st.log ++ [(.rsrc, avail)] }
        else
          .ok { st with count := r.count }
      | .dataFork _ =>
        if h .data then
          .ok { st with count := r.count + avail.length,
                        log := st.log ++ [(.data, avail)] }
        else
          .ok { st with count := r.count }
      | .other e =>
        if h (.other e.id) then
          .ok { st with count := r.count + avail.length,
                        log := st.log ++ [(.other e.id, avail)] }
        else
          .ok { st with count := r.count }
      | .realName n =>
        .ok { st with count := r.count + used,
                      builder := { st.builder with name := some n } }
      | .comment c =>
        .ok { st with count := r.count + used,
                      builder := { st.builder with comment := some c } }
      | .finderInfo fi =>
        .ok { st with count := r.count + used,
                      builder := { st.builder with finf := some fi } }
      | .macInfo mi =>
        .ok { st with count := r.count + used,
                      builder := { st.builder with minf := some mi } }
      | .fileDates d =>
        .ok { st with count := r.count + used,
                      builder := { st.builder with date := some d } }

/-- The whole `for segment in segments` loop of `parse`. -/
def runSegments (s : List Byte) (h : Fork → Bool) :
    StreamState → List Segment → Except IOError StreamState
  | st, [] => .ok st
  | st, seg :: rest =>
    match streamStep s h st seg with
    | .error e => .error e
    | .ok st' => runSegments s h st' rest

/-- `applesingle::parse`: read the header, traverse the offset-sorted
segments streaming fork payloads into handler sinks, and build the
archive (format tag set once before the loop). -/
def parse (s : List Byte) (h : Fork → Bool) :
    Except IOError (Archive × List (Fork × List Byte)) :=
  match streaming s with
  | .error e => .error e
  | .ok ar =>
    match runSegments s h
      { count := ar.reader.count, builder := initBuilder, log := [] }
      (segments_by_offset ar.segments) with
    | .error e => .error e
    | .ok st =>
      match st.builder.build with
      | some a => .ok (a, st.log)
      | none => .error .other

/-! ## Seekable traversal engine (src/applesingle.rs:318-359,
src/archive.rs:108-227) -/

/-- The in-flight state of `parse_seekable`: the embedded metadata
builder plus the recorded fork entries. -/
structure SeekState where
  builder : MetaBuilder
  data_fork : Option Entry
  rsrc_fork : Option Entry
  deriving DecidableEq, Repr

/-- One iteration of the `for segment in segments` loop of
`parse_seekable`: `builder.entry` seeks the raw source to the segment's
offset and bounds it to its length (`Entry::fixate`), `Segment::wrap`
decodes, fork entries are recorded, `Other` members are dropped. -/
def seekStep (s : List Byte) (st : SeekState) (seg : Segment) :
    Except IOError SeekState :=
  let avail := (s.drop seg.offset).take seg.len
  match seg.wrap avail with
  | .error e => .error e
  | .ok (member, _) =>
    match member with
    | .resourceFork e => .ok { st with rsrc_fork := some e }
    | .dataFork e => .ok { st with data_fork := some e }
    | .other _ => .ok st
    | .realName n => .ok { st with builder := { st.builder with name := some n } }
    | .comment c => .ok { st with builder := { st.builder with comment := some c } }
    | .finderInfo fi => .ok { st with builder := { st.builder with finf := some fi } }
    | .macInfo mi => .ok { st with builder := { st.builder with minf := some mi } }
    | .fileDates d => .ok { st with builder := { st.builder with date := some d } }

/-- The whole `for segment in segments` loop of `parse_seekable`. -/
def runSeekSegments (s : List Byte) :
    SeekState → List Segment → Except IOError SeekState
  | st, [] => .ok st
  | st, seg :: rest =>
    match seekStep s st seg with
    | .error e => .error e
    | .ok st' => runSeekSegments s st' rest

/-- `archive::SeekableArchive`: metadata plus the recorded byte ranges of
the two named forks (and ownership of the source). -/
structure SeekableArchive where
  format : String
  finf : Option FinderInfo
  minf : Option Nat
  date : Option Dates
  name : Option (List Byte)
  comment : Option (List Byte)
  data_fork : Option Entry
  rsrc_fork : Option Entry
  deriving DecidableEq, Repr

/-- `applesingle::parse_seekable`. -/
def parse_seekable (s : List Byte) : Except IOError SeekableArchive :=
  match streaming s with
  | .error e => .error e
  | .ok ar =>
    match runSeekSegments s
      { builder := initBuilder, data_fork := none, rsrc_fork := none }
      (segments_by_offset ar.segments) with
    | .error e => .error e
    | .ok st =>
      match st.builder.build with
      | some a =>
        .ok { format := a.format, finf := a.finf, minf := a.minf,
              date := a.date, name := a.name, comment := a.comment,
              data_fork := st.data_fork, rsrc_fork := st.rsrc_fork }
      | none => .error .other

/-- The bytes `Entry::fixate` exposes: seek to `offset`, bound reading to
`len` bytes (short when the source ends early). -/
def entryBytes (s : List Byte) (e : Entry) : List Byte :=
  (s.drop e.offset).take e.len

/-- `SeekableArchive::data_fork` read to the end after the pass. -/
def SeekableArchive.data_fork_bytes (s : List Byte) (sa : SeekableArchive) :
    Option (List Byte) :=
  sa.data_fork.map (entryBytes s)

/-- `SeekableArchive::rsrc_fork` read to the end after the pass. -/
def SeekableArchive.rsrc_fork_bytes (s : List Byte) (sa : SeekableArchive) :
    Option (List Byte) :=
  sa.rsrc_fork.map (entryBytes s)

/-- The content a capturing sink for fork kind `f` holds after the
streaming pass: the concatenation of every payload copied for `f`, or
`none` when no sink for `f` was ever requested and filled. -/
def captured (f : Fork) (log : List (Fork × List Byte)) : Option (List Byte) :=
  match log.filter (fun p => p.1 = f) with
  | [] => none
  | hits => some ((hits.map Prod.snd).flatten)

/-- Whether an optional fork entry is recorded (used to count how many
segments can still claim a fork slot). -/
def forkFlag : Option Entry → Nat
  | none => 0
  | some _ => 1

/-- A handler that supplies a capturing sink for every fork. -/
def captureAll : Fork → Bool := fun _ => true

/-! ## Specification-side auxiliary definitions -/

/-- The last descriptor with a given id in a raw descriptor sequence
(read order), as the spec describes the duplicate-id policy. -/
def lastById : List Segment → Nat → Option Segment
  | [], _ => none
  | s :: rest, i =>
    match lastById rest i with
    | some t => some t
    | none => if s.id = i then some s else none

/-- `lastById` with a fallback, the accumulator form used to reason about
the table fold. -/
def lastByIdOr (descs : List Segment) (i : Nat) (fallback : Option Segment) :
    Option Segment :=
  match lastById descs i with
  | some t => some t
  | none => fallback

/-- The raw descriptor sequence encoded in `n` consecutive 12-byte blocks
starting at position `c` of the container. -/
def rawDescriptors (s : List Byte) (c : Nat) : Nat → List Segment
  | 0 => []
  | n + 1 => decodeSegment ((s.drop c).take 12) :: rawDescriptors s (c + 12) n

/-- A well-formed sample container: 26-byte header announcing two
segments, a 3-byte data fork at offset 50 and a 2-byte resource fork at
offset 53. -/
def sampleContainer : List Byte :=
  MAGICVER ++ List.replicate 16 0 ++ [0, 2]
    ++ [0, 0, 0, 1, 0, 0, 0, 50, 0, 0, 0, 3]
    ++ [0, 0, 0, 2, 0, 0, 0, 53, 0, 0, 0, 2]
    ++ [10, 11, 12] ++ [13, 14]

/-- A truncated container: the single descriptor promises a 10-byte data
fork at offset 38, but the byte stream ends at offset 38. -/
def truncatedContainer : List Byte :=
  MAGICVER ++ List.replicate 16 0 ++ [0, 1]
    ++ [0, 0, 0, 1, 0, 0, 0, 38, 0, 0, 0, 10]

/-- A container that is just a header announcing zero segments. -/
def emptyContainer : List Byte :=
  MAGICVER ++ List.replicate 16 0 ++ [0, 0]

/-- The archive value both engines produce for `sampleContainer`. -/
def sampleArchive : Archive :=
  { format := "AppleSingle", finf := none, minf := none, date := none,
    name := none, comment := none }

/-- The sink log the streaming engine produces for `sampleContainer`
with a capture-everything handler. -/
def sampleLog : List (Fork × List Byte) :=
  [(.data, [10, 11, 12]), (.rsrc, [13, 14])]

/-- The seekable archive produced for `sampleContainer`. -/
def sampleSeekable : SeekableArchive :=
  { format := "AppleSingle", finf := none, minf := none, date := none,
    name := none, comment := none,
    data_fork := some { id := 1, offset := 50, len := 3 },
    rsrc_fork := some { id := 2, offset := 53, len := 2 } }

/-! # Theorems -/

/-- A bit test under the `Lsb0` view is equivalent to masking with the
corresponding power of two. -/
theorem testBit_iff_and_ne (w i mask : Nat) (hm : mask = 2 ^ i) :
    w.testBit i = true ↔ w &&& mask ≠ 0 := by
  subst hm
  rw [Nat.and_two_pow]
  cases h : w.testBit i <;> simp [h]

/-- C2.  The spec's most-significant-bit-first reading of the flag word
is refuted: the code indexes the word through a least-significant-first
(`Lsb0`) view, so at the word `0x8000` the accessor `is_on_desktop`
(which the claim puts at mask `0x8000`) is false, at `0x0001` the
accessor `is_alias` (which the claim puts at mask `0x0001`) is false,
and at `0x7000` (the claim's color mask) the color value is 0, not 7. -/
theorem claim2_counterexample :
    FinderFlags.is_on_desktop 0x8000 = false
    ∧ FinderFlags.is_alias 0x0001 = false
    ∧ FinderFlags.color 0x7000 = 0 := by
  decide

/-- C2 (amended).  The finder-flags word uses least-significant-bit-first
numbering: `is_on_desktop` is mask `0x0001`, `color` is the 3-bit value
at bits 1-3 (value `w / 2 % 8`, mask `0x000E`), `color_reserved` is
`0x0010`, `requires_switch_launch` `0x0020`, `is_shared` `0x0040`,
`has_no_inits` `0x0080`, `has_been_inited` `0x0100`, `has_custom_icon`
`0x0400`, `is_stationery` `0x0800`, `name_locked` `0x1000`,
`has_bundle` `0x2000`, `is_invisible` `0x4000`, and `is_alias` is true
iff mask `0x8000` is set. -/
theorem claim2_amended (w : Nat) :
    (FinderFlags.is_on_desktop w = true ↔ w &&& 0x0001 ≠ 0)
    ∧ FinderFlags.color w = w / 2 % 8
    ∧ (FinderFlags.color_reserved w = true ↔ w &&& 0x0010 ≠ 0)
    ∧ (FinderFlags.requires_switch_launch w = true ↔ w &&& 0x0020 ≠ 0)
    ∧ (FinderFlags.is_shared w = true ↔ w &&& 0x0040 ≠ 0)
    ∧ (FinderFlags.has_no_inits w = true ↔ w &&& 0x0080 ≠ 0)
    ∧ (FinderFlags.has_been_inited w = true ↔ w &&& 0x0100 ≠ 0)
    ∧ (FinderFlags.has_custom_icon w = true ↔ w &&& 0x0400 ≠ 0)
    ∧ (FinderFlags.is_stationery w = true ↔ w &&& 0x0800 ≠ 0)
    ∧ (FinderFlags.name_locked w = true ↔ w &&& 0x1000 ≠ 0)
    ∧ (FinderFlags.has_bundle w = true ↔ w &&& 0x2000 ≠ 0)
    ∧ (FinderFlags.is_invisible w = true ↔ w &&& 0x4000 ≠ 0)
    ∧ (FinderFlags.is_alias w = true ↔ w &&& 0x8000 ≠ 0) := by
  refine ⟨testBit_iff_and_ne w 0 _ (by norm_num), ?_,
    testBit_iff_and_ne w 4 _ (by norm_num),
    testBit_iff_and_ne w 5 _ (by norm_num),
    testBit_iff_and_ne w 6 _ (by norm_num),
    testBit_iff_and_ne w 7 _ (by norm_num),
    testBit_iff_and_ne w 8 _ (by norm_num),
    testBit_iff_and_ne w 10 _ (by norm_num),
    testBit_iff_and_ne w 11 _ (by norm_num),
    testBit_iff_and_ne w 12 _ (by norm_num),
    testBit_iff_and_ne w 13 _ (by norm_num),
    testBit_iff_and_ne w 14 _ (by norm_num),
    testBit_iff_and_ne w 15 _ (by norm_num)⟩
  show (w >>> 1) &&& 7 = w / 2 % 8
  rw [Nat.shiftRight_eq_div_pow]
  have h := Nat.and_pow_two_sub_one_eq_mod (w / 2 ^ 1) 3
  norm_num at h ⊢
  exact h

/-- C3.  The second half of the claim is refuted: the flags word `0x0E00`
decodes to color 0 (not 7), and it sets the boolean accessors
`has_custom_icon` and `is_stationery` (bits 10 and 11 of the `Lsb0`
view), contradicting "every boolean flag accessor false". -/
theorem claim3_counterexample :
    FinderFlags.color 0x0E00 ≠ 7
    ∧ FinderFlags.has_custom_icon 0x0E00 = true
    ∧ FinderFlags.is_stationery 0x0E00 = true := by
  decide

/-- C3 (amended).  The word `0x8000` decodes to `is_alias = true` with
every other flag accessor false (color 0), and the word `0x000E` (the
code's actual color mask) decodes to color 7 with every boolean flag
accessor false. -/
theorem claim3_amended :
    (FinderFlags.is_alias 0x8000 = true
      ∧ FinderFlags.is_on_desktop 0x8000 = false
      ∧ FinderFlags.color 0x8000 = 0
      ∧ FinderFlags.color_reserved 0x8000 = false
      ∧ FinderFlags.requires_switch_launch 0x8000 = false
      ∧ FinderFlags.is_shared 0x8000 = false
      ∧ FinderFlags.has_no_inits 0x8000 = false
      ∧ FinderFlags.has_been_inited 0x8000 = false
      ∧ FinderFlags.has_custom_icon 0x8000 = false
      ∧ FinderFlags.is_stationery 0x8000 = false
      ∧ FinderFlags.name_locked 0x8000 = false
      ∧ FinderFlags.has_bundle 0x8000 = false
      ∧ FinderFlags.is_invisible 0x8000 = false)
    ∧ (FinderFlags.color 0x000E = 7
      ∧ FinderFlags.is_on_desktop 0x000E = false
      ∧ FinderFlags.color_reserved 0x000E = false
      ∧ FinderFlags.requires_switch_launch 0x000E = false
      ∧ FinderFlags.is_shared 0x000E = false
      ∧ FinderFlags.has_no_inits 0x000E = false
      ∧ FinderFlags.has_been_inited 0x000E = false
      ∧ FinderFlags.has_custom_icon 0x000E = false
      ∧ FinderFlags.is_stationery 0x000E = false
      ∧ FinderFlags.name_locked 0x000E = false
      ∧ FinderFlags.has_bundle 0x000E = false
      ∧ FinderFlags.is_invisible 0x000E = false
      ∧ FinderFlags.is_alias 0x000E = false) := by
  decide

/-- C5.  The claim that a successful `skip_to` always leaves the cursor
at `offset` is refuted: on an empty source, `skip_to 5` succeeds (the
drain via `io::copy` stops at end of input) but the cursor stays at 0. -/
theorem claim5_counterexample :
    CountingReader.skip_to { stream := [], count := 0 } 5 =
      .ok { stream := [], count := 0 } := rfl

/-- C5 (amended).  `skip_to(offset)` fails with the unsupported error
exactly when the cursor strictly exceeds `offset`; otherwise it succeeds
after discarding `min (offset - count) remaining` bytes, so the cursor
equals `offset` whenever the source still holds `offset - count` bytes
(but stops early, still succeeding, on a shorter source).  Consequently
a traversal step whose segment offset lies behind the cursor makes
`parse`'s segment loop fail with the unsupported error. -/
theorem claim5_amended :
    (∀ (r : CountingReader) (offset : Nat), offset < r.count →
      r.skip_to offset = .error .unsupported)
    ∧ (∀ (r : CountingReader) (offset : Nat), r.count ≤ offset →
      r.skip_to offset =
        .ok { r with count := r.count + min (offset - r.count) r.remaining.length })
    ∧ (∀ (r : CountingReader) (offset : Nat), r.count ≤ offset →
      offset ≤ r.stream.length →
      r.skip_to offset = .ok { r with count := offset })
    ∧ (∀ (s : List Byte) (h : Fork → Bool) (st : StreamState) (seg : Segment)
        (rest : List Segment), seg.offset < st.count →
      runSegments s h st (seg :: rest) = .error .unsupported) := by
  have hok : ∀ (r : CountingReader) (offset : Nat), r.count ≤ offset →
      r.skip_to offset =
        .ok { r with count := r.count + min (offset - r.count) r.remaining.length } := by
    intro r offset hle
    unfold CountingReader.skip_to CountingReader.readUpTo
    rw [if_neg (by omega)]
    simp [CountingReader.remaining, List.length_take]
  refine ⟨?_, hok, ?_, ?_⟩
  · intro r offset hlt
    unfold CountingReader.skip_to
    rw [if_pos hlt]
  · intro r offset hle hlen
    rw [hok r offset hle]
    have hrem : r.remaining.length = r.stream.length - r.count := by
      simp [CountingReader.remaining]
    have : r.count + min (offset - r.count) r.remaining.length = offset := by
      rw [hrem]; omega
    rw [this]
  · intro s h st seg rest hlt
    have hskip : CountingReader.skip_to { stream := s, count := st.count } seg.offset =
        .error .unsupported := by
      unfold CountingReader.skip_to
      rw [if_pos hlt]
    unfold runSegments streamStep
    rw [hskip]

/-- C5 witness: at cursor 3 with 7 bytes of source, `skip_to 5` lands
exactly on offset 5, `skip_to 2` fails as out of order, and a segment
at offset 2 behind cursor 3 aborts the traversal. -/
theorem claim5_witness :
    CountingReader.skip_to { stream := [0, 1, 2, 3, 4, 5, 6], count := 3 } 5 =
      .ok { stream := [0, 1, 2, 3, 4, 5, 6], count := 5 }
    ∧ CountingReader.skip_to { stream := [0, 1, 2, 3, 4, 5, 6], count := 3 } 2 =
      .error .unsupported
    ∧ runSegments [0, 1, 2, 3, 4, 5, 6] captureAll
        { count := 3, builder := MetaBuilder.new, log := [] }
        [{ id := 1, offset := 2, len := 1 }] = .error .unsupported :=
  ⟨claim5_amended.2.2.1 { stream := [0, 1, 2, 3, 4, 5, 6], count := 3 } 5
      (by decide) (by decide),
   claim5_amended.1 { stream := [0, 1, 2, 3, 4, 5, 6], count := 3 } 2 (by decide),
   claim5_amended.2.2.2 [0, 1, 2, 3, 4, 5, 6] captureAll
      { count := 3, builder := MetaBuilder.new, log := [] }
      { id := 1, offset := 2, len := 1 } [] (by decide)⟩

/-- C7.  Calendar conversion of a signed 32-bit Mac timestamp `t` always
lands inside the time crate's representable range and denotes the
instant at Unix timestamp `t + 946684800`; timestamp 0 is
2000-01-01T00:00:00Z and timestamp -946684800 is 1970-01-01T00:00:00Z;
and decoding a file-dates segment never consults the calendar at all:
with 16 bytes available it always succeeds, storing the raw integers. -/
theorem claim7_mac_timestamps :
    (∀ t : Int, -(2 ^ 31) ≤ t → t < 2 ^ 31 →
      Date.try_into_datetime t = some (civilFromUnix (t + 946684800)))
    ∧ civilFromUnix (Date.as_unix_timestamp 0) =
      { year := 2000, month := 1, day := 1, hour := 0, minute := 0, second := 0 }
    ∧ civilFromUnix (Date.as_unix_timestamp (-946684800)) =
      { year := 1970, month := 1, day := 1, hour := 0, minute := 0, second := 0 }
    ∧ (∀ (seg : Segment) (avail : List Byte),
      seg.entry_type = some .fileDates → 16 ≤ avail.length →
      seg.wrap avail = .ok (.fileDates (Dates.decode (avail.take 16)), 16)) := by
  refine ⟨?_, by decide, by decide, ?_⟩
  · intro t h1 h2
    unfold Date.try_into_datetime Date.as_unix_timestamp MAC_EPOCH
    rw [if_pos]
    constructor
    · unfold UNIX_TIMESTAMP_MIN; omega
    · unfold UNIX_TIMESTAMP_MAX; omega
  · intro seg avail htype hlen
    simp only [Segment.wrap, htype]
    rw [if_pos hlen]

/-- Looking up after a `BTreeMap`-style insert finds the new descriptor
at its id and is unchanged elsewhere. -/
theorem lookupId_insertSeg (t : List Segment) (s : Segment) (i : Nat) :
    lookupId (insertSeg t s) i = if s.id = i then some s else lookupId t i := by
  induction t with
  | nil => rfl
  | cons a ts ih =>
    show lookupId (if s.id < a.id then s :: a :: ts
      else if s.id = a.id then s :: ts else a :: insertSeg ts s) i = _
    by_cases h1 : s.id < a.id
    · rw [if_pos h1]
      simp only [lookupId]
    · rw [if_neg h1]
      by_cases h2 : s.id = a.id
      · rw [if_pos h2]
        simp only [lookupId]
        split_ifs <;> first | rfl | omega
      · rw [if_neg h2]
        simp only [lookupId, ih]
        split_ifs <;> first | rfl | omega

/-- Folding a raw descriptor sequence into the table leaves, at each id,
the last descriptor of that id (falling back to the initial table). -/
theorem lookupId_foldl_insertSeg (descs : List Segment) :
    ∀ (t : List Segment) (i : Nat),
      lookupId (descs.foldl insertSeg t) i = lastByIdOr descs i (lookupId t i) := by
  induction descs with
  | nil => intro t i; rfl
  | cons d ds ih =>
    intro t i
    rw [List.foldl_cons, ih (insertSeg t d) i]
    unfold lastByIdOr
    show (match lastById ds i with
        | some x => some x
        | none => lookupId (insertSeg t d) i) =
      (match lastById (d :: ds) i with
        | some x => some x
        | none => lookupId t i)
    have hcons : lastById (d :: ds) i =
        match lastById ds i with
        | some x => some x
        | none => if d.id = i then some d else none := rfl
    rw [hcons, lookupId_insertSeg]
    cases lastById ds i with
    | some x => rfl
    | none => by_cases h : d.id = i <;> simp [h]

/-- Unfolding lemma for one iteration of the descriptor loop. -/
theorem read_segments_succ (n : Nat) (a : ArchiveReader) :
    read_segments (n + 1) a = match read_segment a with
      | .error e => .error e
      | .ok a' => read_segments n a' := rfl

/-- `read_segments` on a source with enough bytes left succeeds, advances
the cursor by exactly 12 bytes per descriptor, and builds the table by
folding the raw descriptor sequence through the id-keyed insert. -/
theorem read_segments_spec :
    ∀ (n : Nat) (a : ArchiveReader),
      a.reader.count + 12 * n ≤ a.reader.stream.length →
      read_segments n a = .ok
        { reader := { stream := a.reader.stream, count := a.reader.count + 12 * n },
          segments := (rawDescriptors a.reader.stream a.reader.count n).foldl
            insertSeg a.segments } := by
  intro n
  induction n with
  | zero =>
    intro a _
    show Except.ok a = _
    rfl
  | succ n ih =>
    intro a hle
    have hre : a.reader.readExact 12 =
        .ok ((a.reader.stream.drop a.reader.count).take 12,
          { stream := a.reader.stream, count := a.reader.count + 12 }) := by
      unfold CountingReader.readExact
      rw [if_pos (by omega)]
    have hstep : read_segment a = .ok
        { reader := { stream := a.reader.stream, count := a.reader.count + 12 },
          segments := insertSeg a.segments
            (decodeSegment ((a.reader.stream.drop a.reader.count).take 12)) } := by
      unfold read_segment
      rw [hre]
    have hrec := ih
      { reader := { stream := a.reader.stream, count := a.reader.count + 12 },
        segments := insertSeg a.segments
          (decodeSegment ((a.reader.stream.drop a.reader.count).take 12)) }
      (by show a.reader.count + 12 + 12 * n ≤ a.reader.stream.length; omega)
    rw [read_segments_succ, hstep]
    refine hrec.trans ?_
    have harith : a.reader.count + 12 + 12 * n = a.reader.count + 12 * (n + 1) := by
      omega
    simp only [rawDescriptors, List.foldl_cons, harith]

/-- `read_segments` on a source that ends inside the descriptor table
fails with the end-of-file error. -/
theorem read_segments_short :
    ∀ (n : Nat) (a : ArchiveReader),
      a.reader.count ≤ a.reader.stream.length →
      a.reader.stream.length < a.reader.count + 12 * n →
      read_segments n a = .error .unexpectedEof := by
  intro n
  induction n with
  | zero =>
    intro a h1 h2
    exact absurd h1 (by omega)
  | succ n ih =>
    intro a h1 h2
    rw [read_segments_succ]
    by_cases hc : a.reader.count + 12 ≤ a.reader.stream.length
    · have hre : a.reader.readExact 12 =
          .ok ((a.reader.stream.drop a.reader.count).take 12,
            { stream := a.reader.stream, count := a.reader.count + 12 }) := by
        unfold CountingReader.readExact
        rw [if_pos (by omega)]
      have hstep : read_segment a = .ok
          { reader := { stream := a.reader.stream, count := a.reader.count + 12 },
            segments := insertSeg a.segments
              (decodeSegment ((a.reader.stream.drop a.reader.count).take 12)) } := by
        unfold read_segment
        rw [hre]
      rw [hstep]
      exact ih
        { reader := { stream := a.reader.stream, count := a.reader.count + 12 },
          segments := insertSeg a.segments
            (decodeSegment ((a.reader.stream.drop a.reader.count).take 12)) }
        (by show a.reader.count + 12 ≤ a.reader.stream.length; omega)
        (by show a.reader.stream.length < a.reader.count + 12 + 12 * n; omega)
    · have hre : a.reader.readExact 12 = .error .unexpectedEof := by
        unfold CountingReader.readExact
        rw [if_neg (by omega)]
      have hstep : read_segment a = .error .unexpectedEof := by
        unfold read_segment
        rw [hre]
      rw [hstep]

/-- On a source holding at least the 26-byte header block, `streaming`
reduces to the magic/version check followed by the descriptor loop. -/
theorem streaming_shape (s : List Byte) (hlen : 26 ≤ s.length) :
    streaming s = if s.take 8 = MAGICVER
      then read_segments (beNat ((s.drop 24).take 2))
        { reader := { stream := s, count := 26 }, segments := [] }
      else .error .formatMismatch := by
  unfold streaming read_header
  have hre : CountingReader.readExact { stream := s, count := 0 } 26 =
      .ok (s.take 26, { stream := s, count := 26 }) := by
    unfold CountingReader.readExact
    rw [if_pos (by show 0 + 26 ≤ s.length; omega)]
    simp
  rw [hre]
  show (if (s.take 26).take 8 = MAGICVER
    then read_segments (beNat (((s.take 26).drop 24).take 2))
      { reader := { stream := s, count := 26 }, segments := [] }
    else .error .formatMismatch) = _
  have h8 : (s.take 26).take 8 = s.take 8 := by
    rw [List.take_take]
    norm_num
  have h24 : ((s.take 26).drop 24).take 2 = (s.drop 24).take 2 := by
    rw [List.drop_take]
    norm_num [List.take_take]
  rw [h8, h24]

/-- C6.  The claim that bad magic/version bytes always yield a
format-mismatch error is refuted: the code reads the whole 26-byte
header block with one `read_exact` before deku checks the magic, so an
8-byte source whose first 8 bytes are not the magic fails with the
truncation (unexpected end-of-file) error, not the format-mismatch
error. -/
theorem claim6_counterexample :
    streaming [1, 1, 1, 1, 1, 1, 1, 1] = .error .unexpectedEof
    ∧ IOError.unexpectedEof ≠ IOError.formatMismatch := by
  exact ⟨rfl, by decide⟩

/-- C6 (amended).  Header parsing reads the first 26 bytes as one block:
a source shorter than 26 bytes fails with the end-of-file error (even
when its first 8 bytes mismatch the magic); otherwise it fails with a
format-mismatch error unless the first 8 bytes are the magic
`0x00051600` and version `0x00020000`; on a match the 16 reserved bytes
are skipped, the 2-byte big-endian segment count `n` is read (bytes 24
and 25), and exactly `n` 12-byte big-endian descriptors follow, the
cursor landing on exactly `26 + 12 * n` on success and the whole parse
failing with the end-of-file error when the source ends inside the
descriptor table. -/
theorem claim6_amended (s : List Byte) :
    (s.length < 26 → streaming s = .error .unexpectedEof)
    ∧ (26 ≤ s.length → s.take 8 ≠ MAGICVER → streaming s = .error .formatMismatch)
    ∧ (26 ≤ s.length → s.take 8 = MAGICVER →
      (26 + 12 * beNat ((s.drop 24).take 2) ≤ s.length →
        streaming s = .ok
          { reader := { stream := s, count := 26 + 12 * beNat ((s.drop 24).take 2) },
            segments := (rawDescriptors s 26 (beNat ((s.drop 24).take 2))).foldl
              insertSeg [] })
      ∧ (s.length < 26 + 12 * beNat ((s.drop 24).take 2) →
        streaming s = .error .unexpectedEof)) := by
  refine ⟨?_, ?_, ?_⟩
  · intro hshort
    unfold streaming read_header CountingReader.readExact
    rw [if_neg (by show ¬(0 + 26 ≤ s.length); omega)]
  · intro hlen hmag
    rw [streaming_shape s hlen, if_neg hmag]
  · intro hlen hmag
    constructor
    · intro hfit
      rw [streaming_shape s hlen, if_pos hmag]
      exact read_segments_spec (beNat ((s.drop 24).take 2))
        { reader := { stream := s, count := 26 }, segments := [] }
        (by show 26 + 12 * beNat ((s.drop 24).take 2) ≤ s.length; omega)
    · intro hover
      rw [streaming_shape s hlen, if_pos hmag]
      exact read_segments_short (beNat ((s.drop 24).take 2))
        { reader := { stream := s, count := 26 }, segments := [] }
        (by show 26 ≤ s.length; omega)
        (by show s.length < 26 + 12 * beNat ((s.drop 24).take 2); omega)

/-- C6 witness: a 26-byte header announcing zero segments parses
successfully with the cursor at exactly 26 + 12·0. -/
theorem claim6_witness :
    streaming emptyContainer = .ok
      { reader := { stream := emptyContainer,
                    count := 26 + 12 * beNat ((emptyContainer.drop 24).take 2) },
        segments := (rawDescriptors emptyContainer 26
          (beNat ((emptyContainer.drop 24).take 2))).foldl insertSeg [] } :=
  ((claim6_amended emptyContainer).2.2 (by decide) (by decide)).1 (by decide)

/-- C8.  Duplicate descriptor ids: the table lookup after folding a raw
descriptor sequence through the id-keyed insert yields exactly the last
descriptor read for each id, and the header reader's descriptor loop
builds precisely that fold over the raw 12-byte descriptor blocks. -/
theorem claim8_last_descriptor_wins :
    (∀ (descs : List Segment) (i : Nat),
      lookupId (descs.foldl insertSeg []) i = lastById descs i)
    ∧ (∀ (n : Nat) (a : ArchiveReader),
      a.reader.count + 12 * n ≤ a.reader.stream.length →
      read_segments n a = .ok
        { reader := { stream := a.reader.stream, count := a.reader.count + 12 * n },
          segments := (rawDescriptors a.reader.stream a.reader.count n).foldl
            insertSeg a.segments }) := by
  constructor
  · intro descs i
    rw [lookupId_foldl_insertSeg]
    unfold lastByIdOr
    cases h : lastById descs i <;> simp [lookupId]
  · exact read_segments_spec

/-- C8 witness: two descriptors sharing id 1 (offsets 0 and 100): the
built table holds the later descriptor, and the reader's loop over their
24 raw bytes builds that very fold. -/
theorem claim8_witness :
    lookupId (List.foldl insertSeg []
        [{ id := 1, offset := 0, len := 5 }, { id := 1, offset := 100, len := 7 }]) 1 =
      lastById [{ id := 1, offset := 0, len := 5 }, { id := 1, offset := 100, len := 7 }] 1
    ∧ read_segments 2
        { reader := { stream := [0, 0, 0, 1, 0, 0, 0, 0, 0, 0, 0, 5,
                                 0, 0, 0, 1, 0, 0, 0, 100, 0, 0, 0, 7], count := 0 },
          segments := [] } = .ok
        { reader := { stream := [0, 0, 0, 1, 0, 0, 0, 0, 0, 0, 0, 5,
                                 0, 0, 0, 1, 0, 0, 0, 100, 0, 0, 0, 7], count := 0 + 12 * 2 },
          segments := (rawDescriptors [0, 0, 0, 1, 0, 0, 0, 0, 0, 0, 0, 5,
                                       0, 0, 0, 1, 0, 0, 0, 100, 0, 0, 0, 7] 0 2).foldl
            insertSeg [] } :=
  ⟨claim8_last_descriptor_wins.1
      [{ id := 1, offset := 0, len := 5 }, { id := 1, offset := 100, len := 7 }] 1,
   claim8_last_descriptor_wins.2 2
      { reader := { stream := [0, 0, 0, 1, 0, 0, 0, 0, 0, 0, 0, 5,
                               0, 0, 0, 1, 0, 0, 0, 100, 0, 0, 0, 7], count := 0 },
        segments := [] } (by decide)⟩

/-- C4.  The claim that every truncated container fails is refuted: this
container's single descriptor promises a 10-byte data fork at offset 38,
the stream ends at byte 38, yet the streaming engine returns a complete
archive (the capturing sink receives 0 bytes) and the seekable engine
returns an archive whose recorded data fork simply reads back empty. -/
theorem claim4_counterexample :
    parse truncatedContainer captureAll = .ok
      ({ format := "AppleSingle", finf := none, minf := none, date := none,
         name := none, comment := none }, [(.data, [])])
    ∧ parse_seekable truncatedContainer = .ok
      { format := "AppleSingle", finf := none, minf := none, date := none,
        name := none, comment := none,
        data_fork := some { id := 1, offset := 38, len := 10 }, rsrc_fork := none } := by
  constructor
  · rfl
  · rfl

/-- C4 (amended).  Truncation is fatal only where the code actually
demands bytes: a source shorter than the 26-byte header block (or ending
inside the descriptor table, see the C6 theorem) makes both engines
fail; a Finder-info or file-dates segment with fewer than 16 bytes
available, or a Mac-info segment with fewer than 4, makes its decode
fail, and any failing segment step aborts the containing traversal.
Truncation inside fork payloads, real-name/comment payloads, or in the
gap skipped before a segment is not detected: both engines succeed with
the bytes that exist. -/
theorem claim4_amended :
    (∀ (s : List Byte) (h : Fork → Bool), s.length < 26 →
      parse s h = .error .unexpectedEof
      ∧ parse_seekable s = .error .unexpectedEof)
    ∧ (∀ (seg : Segment) (avail : List Byte),
      seg.entry_type = some .finderInfo ∨ seg.entry_type = some .fileDates →
      avail.length < 16 → seg.wrap avail = .error .unexpectedEof)
    ∧ (∀ (seg : Segment) (avail : List Byte),
      seg.entry_type = some .macintoshFileInfo → avail.length < 4 →
      seg.wrap avail = .error .unexpectedEof)
    ∧ (∀ (s : List Byte) (h : Fork → Bool) (st : StreamState) (seg : Segment)
        (rest : List Segment) (e : IOError), streamStep s h st seg = .error e →
      runSegments s h st (seg :: rest) = .error e)
    ∧ (∀ (s : List Byte) (st : SeekState) (seg : Segment)
        (rest : List Segment) (e : IOError), seekStep s st seg = .error e →
      runSeekSegments s st (seg :: rest) = .error e) := by
  refine ⟨?_, ?_, ?_, ?_, ?_⟩
  · intro s h hshort
    have hhdr : streaming s = .error .unexpectedEof := by
      unfold streaming read_header CountingReader.readExact
      rw [if_neg (by show ¬(0 + 26 ≤ s.length); omega)]
    constructor
    · unfold parse
      rw [hhdr]
    · unfold parse_seekable
      rw [hhdr]
  · intro seg avail htype hlen
    rcases htype with htype | htype <;>
      · simp only [Segment.wrap, htype]
        rw [if_neg (by omega)]
  · intro seg avail htype hlen
    simp only [Segment.wrap, htype]
    rw [if_neg (by omega)]
  · intro s h st seg rest e hstep
    unfold runSegments
    rw [hstep]
  · intro s st seg rest e hstep
    unfold runSeekSegments
    rw [hstep]

/-- C4 witness: an empty source makes both engines fail with the
end-of-file error; a Finder-info segment with only 3 bytes available
fails; a Mac-info segment with 2 bytes fails; and a failing first
segment step aborts both traversals. -/
theorem claim4_witness :
    (parse [] captureAll = .error .unexpectedEof
      ∧ parse_seekable [] = .error .unexpectedEof)
    ∧ Segment.wrap { id := 9, offset := 26, len := 16 } [1, 2, 3] =
      .error .unexpectedEof
    ∧ Segment.wrap { id := 10, offset := 26, len := 4 } [1, 2] =
      .error .unexpectedEof
    ∧ runSegments [] captureAll
        { count := 1, builder := MetaBuilder.new, log := [] }
        [{ id := 1, offset := 0, len := 1 }] = .error .unsupported
    ∧ runSeekSegments [1, 2]
        { builder := MetaBuilder.new, data_fork := none, rsrc_fork := none }
        [{ id := 9, offset := 0, len := 16 }] =
      .error .unexpectedEof :=
  ⟨claim4_amended.1 [] captureAll (by decide),
   claim4_amended.2.1 { id := 9, offset := 26, len := 16 } [1, 2, 3]
     (Or.inl (by decide)) (by decide),
   claim4_amended.2.2.1 { id := 10, offset := 26, len := 4 } [1, 2]
     (by decide) (by decide),
   claim4_amended.2.2.2.1 [] captureAll
     { count := 1, builder := MetaBuilder.new, log := [] }
     { id := 1, offset := 0, len := 1 } [] .unsupported rfl,
   claim4_amended.2.2.2.2 [1, 2]
     { builder := MetaBuilder.new, data_fork := none, rsrc_fork := none }
     { id := 9, offset := 0, len := 16 } [] .unexpectedEof rfl⟩

/-- A successful id conversion pins the raw id to the entry type's
discriminant. -/
theorem try_from_code (n : Nat) (et : EntryType)
    (h : EntryType.try_from n = some et) : n = et.code := by
  unfold EntryType.try_from at h
  split at h <;> first | (cases Option.some.inj h; rfl) | simp_all

/-- Any segment whose id is none of the seven interpreted ids (1-4 and
8-10) is dispatched to the opaque `Other` arm, reading nothing. -/
theorem wrap_other (seg : Segment) (avail : List Byte)
    (h1 : seg.id ≠ 1) (h2 : seg.id ≠ 2) (h3 : seg.id ≠ 3) (h4 : seg.id ≠ 4)
    (h8 : seg.id ≠ 8) (h9 : seg.id ≠ 9) (h10 : seg.id ≠ 10) :
    seg.wrap avail = .ok (.other seg.toEntry, 0) := by
  cases htype : seg.entry_type with
  | none => simp only [Segment.wrap, htype]
  | some et =>
    have hc := try_from_code seg.id et htype
    cases et <;> simp only [EntryType.code] at hc <;>
      first
        | exact absurd hc (by assumption)
        | simp only [Segment.wrap, htype]

/-- `skip_to` from a cursor not past `offset` succeeds and advances by
the distance to `offset`, clipped to the bytes actually remaining. -/
theorem skip_dest (s : List Byte) (c offset : Nat) (hle : c ≤ offset) :
    CountingReader.skip_to { stream := s, count := c } offset =
      .ok { stream := s, count := c + min (offset - c) (s.length - c) } := by
  unfold CountingReader.skip_to CountingReader.readUpTo
  rw [if_neg (by show ¬(offset < c); omega)]
  simp [List.length_take, List.length_drop]

/-- The suffix left after a clipped skip to `offset` is the suffix at
`offset` itself (both are empty when the source ends first). -/
theorem drop_skip_dest (s : List Byte) (c offset : Nat) (hle : c ≤ offset) :
    s.drop (c + min (offset - c) (s.length - c)) = s.drop offset := by
  rcases le_or_lt offset s.length with hcase | hcase
  · have heq : c + min (offset - c) (s.length - c) = offset := by omega
    rw [heq]
  · have hnil1 : s.drop (c + min (offset - c) (s.length - c)) = [] :=
      List.drop_eq_nil_of_le (by omega)
    have hnil2 : s.drop offset = [] := List.drop_eq_nil_of_le (by omega)
    rw [hnil1, hnil2]

/-- A streaming step over a segment that dispatches to `Other` offers the
payload to the handler under `Fork.other id` and leaves the metadata
builder untouched. -/
theorem streamStep_other (s : List Byte) (h : Fork → Bool) (st : StreamState)
    (seg : Segment) (hle : st.count ≤ seg.offset)
    (hwrap : seg.wrap ((s.drop seg.offset).take seg.len) = .ok (.other seg.toEntry, 0)) :
    streamStep s h st seg = .ok (if h (.other seg.id) then
      { count := st.count + min (seg.offset - st.count) (s.length - st.count)
          + ((s.drop seg.offset).take seg.len).length,
        builder := st.builder,
        log := st.log ++ [(.other seg.id, (s.drop seg.offset).take seg.len)] }
      else
      { count := st.count + min (seg.offset - st.count) (s.length - st.count),
        builder := st.builder, log := st.log }) := by
  simp only [streamStep, skip_dest s st.count seg.offset hle,
    drop_skip_dest s st.count seg.offset hle, hwrap]
  by_cases hh : h (.other seg.id) <;> simp [hh, Segment.toEntry]

/-- C7 witness: the Mac timestamp 0 (inside the 32-bit range) converts
to the calendar instant of Unix timestamp 946684800, and a 16-byte
file-dates segment decodes without error. -/
theorem claim7_witness :
    Date.try_into_datetime 0 = some (civilFromUnix (0 + 946684800))
    ∧ Segment.wrap { id := 8, offset := 26, len := 16 } (List.replicate 16 0) =
      .ok (.fileDates (Dates.decode ((List.replicate 16 0).take 16)), 16) :=
  ⟨claim7_mac_timestamps.1 0 (by decide) (by decide),
   claim7_mac_timestamps.2.2.2 { id := 8, offset := 26, len := 16 }
     (List.replicate 16 0) (by decide) (by decide)⟩

/-- C9.  The enumerated-but-uninterpreted entry types — the icon ids 5
and 6 and the ProDOS/MS-DOS/AFP ids 11 through 15 — dispatch exactly
like a completely unknown id: the dispatcher yields an opaque `Other`
member tagged with the raw id after reading nothing (same shape as any
id outside the enumeration), the streaming engine sets no metadata field
from them, and it offers the payload to the handler as `Fork.other id`. -/
theorem claim9_uninterpreted_ids (seg : Segment)
    (hid : seg.id = 5 ∨ seg.id = 6 ∨ seg.id = 11 ∨ seg.id = 12 ∨ seg.id = 13
      ∨ seg.id = 14 ∨ seg.id = 15) :
    (∀ avail : List Byte, seg.wrap avail = .ok (.other seg.toEntry, 0))
    ∧ (∀ (seg' : Segment) (avail : List Byte), EntryType.try_from seg'.id = none →
      seg'.wrap avail = .ok (.other seg'.toEntry, 0))
    ∧ (∀ (s : List Byte) (h : Fork → Bool) (st : StreamState),
      st.count ≤ seg.offset →
      streamStep s h st seg = .ok (if h (.other seg.id) then
        { count := st.count + min (seg.offset - st.count) (s.length - st.count)
            + ((s.drop seg.offset).take seg.len).length,
          builder := st.builder,
          log := st.log ++ [(.other seg.id, (s.drop seg.offset).take seg.len)] }
        else
        { count := st.count + min (seg.offset - st.count) (s.length - st.count),
          builder := st.builder, log := st.log })) := by
  have hne : seg.id ≠ 1 ∧ seg.id ≠ 2 ∧ seg.id ≠ 3 ∧ seg.id ≠ 4 ∧ seg.id ≠ 8
      ∧ seg.id ≠ 9 ∧ seg.id ≠ 10 := by
    rcases hid with h | h | h | h | h | h | h <;> omega
  obtain ⟨h1, h2, h3, h4, h8, h9, h10⟩ := hne
  refine ⟨fun avail => wrap_other seg avail h1 h2 h3 h4 h8 h9 h10, ?_, ?_⟩
  · intro seg' avail hnone
    simp only [Segment.wrap, Segment.entry_type, hnone]
  · intro s h st hle
    exact streamStep_other s h st seg hle
      (wrap_other seg ((s.drop seg.offset).take seg.len) h1 h2 h3 h4 h8 h9 h10)

/-- C9 witness: an icon-BW segment (id 5) and an unknown id 7 both
dispatch to `Other` reading nothing, and the streaming engine offers the
id-5 payload to the handler tagged `Fork.other 5`. -/
theorem claim9_witness :
    Segment.wrap { id := 5, offset := 30, len := 2 } [9, 9] =
      .ok (.other (Segment.toEntry { id := 5, offset := 30, len := 2 }), 0)
    ∧ Segment.wrap { id := 7, offset := 30, len := 2 } [9, 9] =
      .ok (.other (Segment.toEntry { id := 7, offset := 30, len := 2 }), 0)
    ∧ streamStep [9, 9] captureAll
        { count := 0, builder := MetaBuilder.new, log := [] }
        { id := 5, offset := 0, len := 2 } = .ok
        (if captureAll (.other 5) then
          { count := 0 + min (0 - 0) ([9, 9].length - 0) + (([9, 9].drop 0).take 2).length,
            builder := MetaBuilder.new,
            log := [] ++ [(.other 5, ([9, 9].drop 0).take 2)] }
        else
          { count := 0 + min (0 - 0) ([9, 9].length - 0),
            builder := MetaBuilder.new, log := [] }) :=
  ⟨(claim9_uninterpreted_ids { id := 5, offset := 30, len := 2 } (Or.inl rfl)).1 [9, 9],
   (claim9_uninterpreted_ids { id := 5, offset := 30, len := 2 } (Or.inl rfl)).2.1
     { id := 7, offset := 30, len := 2 } [9, 9] rfl,
   (claim9_uninterpreted_ids { id := 5, offset := 0, len := 2 } (Or.inl rfl)).2.2
     [9, 9] captureAll { count := 0, builder := MetaBuilder.new, log := [] }
     (by decide)⟩

/-- C10.  In seekable mode every `Other`-classified segment (id neither
a recognized metadata type nor fork id 1 or 2) is silently dropped: the
seekable step returns its state completely unchanged, so nothing of the
segment reaches the `SeekableArchive` (whose only fork records are the
data- and resource-fork entries) — while the streaming engine, by
contrast, offers the same segment's payload to the handler under
`Fork.other id`. -/
theorem claim10_seekable_drops_other (s : List Byte) (st : SeekState) (seg : Segment)
    (h1 : seg.id ≠ 1) (h2 : seg.id ≠ 2) (h3 : seg.id ≠ 3) (h4 : seg.id ≠ 4)
    (h8 : seg.id ≠ 8) (h9 : seg.id ≠ 9) (h10 : seg.id ≠ 10) :
    seekStep s st seg = .ok st
    ∧ (∀ (h : Fork → Bool) (stt : StreamState), stt.count ≤ seg.offset →
      h (.other seg.id) = true →
      streamStep s h stt seg = .ok
        { count := stt.count + min (seg.offset - stt.count) (s.length - stt.count)
            + ((s.drop seg.offset).take seg.len).length,
          builder := stt.builder,
          log := stt.log ++ [(.other seg.id, (s.drop seg.offset).take seg.len)] }) := by
  constructor
  · simp only [seekStep,
      wrap_other seg ((s.drop seg.offset).take seg.len) h1 h2 h3 h4 h8 h9 h10]
  · intro h stt hle hh
    rw [streamStep_other s h stt seg hle
      (wrap_other seg ((s.drop seg.offset).take seg.len) h1 h2 h3 h4 h8 h9 h10),
      if_pos hh]

/-- C10 witness: a ProDOS-info segment (id 11) leaves the seekable state
untouched while the streaming engine hands its payload to the handler. -/
theorem claim10_witness :
    seekStep [9, 9] { builder := MetaBuilder.new, data_fork := none, rsrc_fork := none }
        { id := 11, offset := 0, len := 2 } =
      .ok { builder := MetaBuilder.new, data_fork := none, rsrc_fork := none }
    ∧ streamStep [9, 9] captureAll
        { count := 0, builder := MetaBuilder.new, log := [] }
        { id := 11, offset := 0, len := 2 } = .ok
        { count := 0 + min (0 - 0) ([9, 9].length - 0) + (([9, 9].drop 0).take 2).length,
          builder := MetaBuilder.new,
          log := [] ++ [(.other 11, ([9, 9].drop 0).take 2)] } :=
  ⟨(claim10_seekable_drops_other [9, 9]
      { builder := MetaBuilder.new, data_fork := none, rsrc_fork := none }
      { id := 11, offset := 0, len := 2 } (by decide) (by decide) (by decide)
      (by decide) (by decide) (by decide) (by decide)).1,
   (claim10_seekable_drops_other [9, 9]
      { builder := MetaBuilder.new, data_fork := none, rsrc_fork := none }
      { id := 11, offset := 0, len := 2 } (by decide) (by decide) (by decide)
      (by decide) (by decide) (by decide) (by decide)).2 captureAll
      { count := 0, builder := MetaBuilder.new, log := [] } (by decide) rfl⟩

/-- A sink log holds nothing for a fork that never appears in it. -/
theorem filter_eq_nil_of_captured_none {f : Fork} {log : List (Fork × List Byte)}
    (h : captured f log = none) : log.filter (fun p => p.1 = f) = [] := by
  unfold captured at h
  cases hfl : log.filter (fun p => p.1 = f) with
  | nil => rfl
  | cons a as => rw [hfl] at h; simp at h

/-- Copying a payload for a different fork leaves a sink's content
unchanged. -/
theorem captured_append_ne (f g : Fork) (x : List Byte)
    (log : List (Fork × List Byte)) (hne : ¬(g = f)) :
    captured f (log ++ [(g, x)]) = captured f log := by
  unfold captured
  rw [List.filter_append]
  have hsing : List.filter (fun p => decide (p.1 = f)) [(g, x)] = [] := by
    simp [hne]
  rw [hsing, List.append_nil]

/-- The first copy into a fork's sink leaves exactly that payload. -/
theorem captured_append_self_of_none (f : Fork) (x : List Byte)
    (log : List (Fork × List Byte)) (h : captured f log = none) :
    captured f (log ++ [(f, x)]) = some x := by
  have hfl := filter_eq_nil_of_captured_none h
  unfold captured
  rw [List.filter_append, hfl]
  simp

/-- An unrecorded fork slot has flag 0. -/
theorem forkFlag_eq_zero {o : Option Entry} (h : forkFlag o = 0) : o = none := by
  cases o with
  | none => rfl
  | some e => simp [forkFlag] at h

/-- A recorded-or-not fork slot counts at most once. -/
theorem forkFlag_le_one (o : Option Entry) : forkFlag o ≤ 1 := by
  cases o <;> simp [forkFlag]

/-- Stable insertion by offset permutes to consing. -/
theorem insertByOffset_perm (x : Segment) (l : List Segment) :
    List.Perm (insertByOffset x l) (x :: l) := by
  induction l with
  | nil => exact List.Perm.refl _
  | cons y ys ih =>
    unfold insertByOffset
    by_cases hc : y.offset ≤ x.offset
    · rw [if_pos hc]
      exact (ih.cons y).trans (List.Perm.swap x y ys)
    · rw [if_neg hc]

/-- The offset-sorted traversal order is a permutation of the table. -/
theorem segments_by_offset_perm (l : List Segment) :
    List.Perm (segments_by_offset l) l := by
  have key : ∀ (l acc : List Segment),
      List.Perm (List.foldl (fun acc x => insertByOffset x acc) acc l) (l ++ acc) := by
    intro l
    induction l with
    | nil => intro acc; simp
    | cons x xs ih =>
      intro acc
      rw [List.foldl_cons]
      have h1 := ih (insertByOffset x acc)
      have h2 : List.Perm (xs ++ insertByOffset x acc) (xs ++ (x :: acc)) :=
        List.Perm.append_left xs (insertByOffset_perm x acc)
      have h3 : List.Perm (xs ++ (x :: acc)) (x :: (xs ++ acc)) := List.perm_middle
      exact (h1.trans h2).trans h3
  have hmain := key l []
  simpa using hmain

/-- Membership after an id-keyed insert. -/
theorem mem_insertSeg {y : Segment} :
    ∀ {t : List Segment} {x : Segment}, y ∈ insertSeg t x → y = x ∨ y ∈ t := by
  intro t
  induction t with
  | nil =>
    intro x hy
    simp [insertSeg] at hy
    exact Or.inl hy
  | cons a ts ih =>
    intro x hy
    unfold insertSeg at hy
    by_cases h1 : x.id < a.id
    · rw [if_pos h1] at hy
      rcases List.mem_cons.mp hy with rfl | hy'
      · exact Or.inl rfl
      · exact Or.inr hy'
    · rw [if_neg h1] at hy
      by_cases h2 : x.id = a.id
      · rw [if_pos h2] at hy
        rcases List.mem_cons.mp hy with rfl | hy'
        · exact Or.inl rfl
        · exact Or.inr (List.mem_cons_of_mem a hy')
      · rw [if_neg h2] at hy
        rcases List.mem_cons.mp hy with rfl | hy'
        · exact Or.inr (List.mem_cons_self y ts)
        · rcases ih hy' with rfl | hy2
          · exact Or.inl rfl
          · exact Or.inr (List.mem_cons_of_mem a hy2)

/-- An id-keyed insert keeps the table strictly sorted by id. -/
theorem pairwise_insertSeg :
    ∀ (t : List Segment) (x : Segment),
      List.Pairwise (fun u v => u.id < v.id) t →
      List.Pairwise (fun u v => u.id < v.id) (insertSeg t x) := by
  intro t
  induction t with
  | nil =>
    intro x _
    simp [insertSeg]
  | cons a ts ih =>
    intro x hp
    rcases List.pairwise_cons.mp hp with ⟨hhead, htail⟩
    unfold insertSeg
    by_cases h1 : x.id < a.id
    · rw [if_pos h1]
      refine List.pairwise_cons.mpr ⟨?_, hp⟩
      intro y hy
      rcases List.mem_cons.mp hy with rfl | hy'
      · exact h1
      · exact h1.trans (hhead y hy')
    · rw [if_neg h1]
      by_cases h2 : x.id = a.id
      · rw [if_pos h2]
        refine List.pairwise_cons.mpr ⟨?_, htail⟩
        intro y hy
        have := hhead y hy
        omega
      · rw [if_neg h2]
        refine List.pairwise_cons.mpr ⟨?_, ih x htail⟩
        intro y hy
        rcases mem_insertSeg hy with rfl | hy'
        · omega
        · exact hhead y hy'

/-- Folding raw descriptors into a strictly id-sorted table keeps it
strictly id-sorted. -/
theorem pairwise_foldl_insertSeg :
    ∀ (descs t : List Segment),
      List.Pairwise (fun u v => u.id < v.id) t →
      List.Pairwise (fun u v => u.id < v.id) (descs.foldl insertSeg t) := by
  intro descs
  induction descs with
  | nil => intro t ht; exact ht
  | cons d ds ih =>
    intro t ht
    rw [List.foldl_cons]
    exact ih _ (pairwise_insertSeg t d ht)

/-- One descriptor read inserts the decoded descriptor into the table. -/
theorem read_segment_inv (a a1 : ArchiveReader) (h : read_segment a = .ok a1) :
    a1.segments = insertSeg a.segments
      (decodeSegment ((a.reader.stream.drop a.reader.count).take 12)) := by
  unfold read_segment at h
  cases hre : a.reader.readExact 12 with
  | error e => rw [hre] at h; simp at h
  | ok pr =>
    obtain ⟨bytes, r⟩ := pr
    rw [hre] at h
    have hbytes : bytes = (a.reader.stream.drop a.reader.count).take 12 := by
      unfold CountingReader.readExact at hre
      split at hre
      · simp only [Except.ok.injEq, Prod.mk.injEq] at hre
        exact hre.1.symm
      · simp at hre
    injection h with h1
    rw [← h1, hbytes]

/-- The descriptor loop preserves strict id-sortedness of the table. -/
theorem read_segments_pairwise :
    ∀ (n : Nat) (a a' : ArchiveReader), read_segments n a = .ok a' →
      List.Pairwise (fun u v => u.id < v.id) a.segments →
      List.Pairwise (fun u v => u.id < v.id) a'.segments := by
  intro n
  induction n with
  | zero =>
    intro a a' h hp
    injection h with he
    rw [← he]
    exact hp
  | succ n ih =>
    intro a a' h hp
    rw [read_segments_succ] at h
    cases hstep : read_segment a with
    | error e => rw [hstep] at h; simp at h
    | ok a1 =>
      rw [hstep] at h
      refine ih a1 a' h ?_
      rw [read_segment_inv a a1 hstep]
      exact pairwise_insertSeg a.segments _ hp

/-- The table built by the header reader is strictly sorted by id, so
each id occurs at most once. -/
theorem streaming_pairwise (s : List Byte) (ar : ArchiveReader)
    (h : streaming s = .ok ar) :
    List.Pairwise (fun u v => u.id < v.id) ar.segments := by
  by_cases hlen : 26 ≤ s.length
  · rw [streaming_shape s hlen] at h
    by_cases hmag : s.take 8 = MAGICVER
    · rw [if_pos hmag] at h
      exact read_segments_pairwise _ _ _ h List.Pairwise.nil
    · rw [if_neg hmag] at h
      simp at h
  · have herr : streaming s = .error .unexpectedEof := by
      unfold streaming read_header CountingReader.readExact
      rw [if_neg (by show ¬(0 + 26 ≤ s.length); omega)]
    rw [herr] at h
    simp at h

/-- A strictly id-sorted segment list mentions any given id at most
once. -/
theorem countP_le_one_of_pairwise (l : List Segment) (k : Nat)
    (hp : List.Pairwise (fun u v => u.id < v.id) l) :
    l.countP (fun seg => seg.id == k) ≤ 1 := by
  induction l with
  | nil => simp
  | cons a ts ih =>
    rcases List.pairwise_cons.mp hp with ⟨hhead, htail⟩
    rw [List.countP_cons]
    by_cases ha : a.id = k
    · have hz : ts.countP (fun seg => seg.id == k) = 0 := by
        rw [List.countP_eq_zero]
        intro y hy
        have := hhead y hy
        simp only [beq_iff_eq]
        omega
      rw [hz]
      simp [ha]
    · have := ih htail
      simp only [beq_iff_eq]
      rw [if_neg ha]
      omega

/-- Lockstep case for an `Other`-classified segment: the streaming step
logs the payload (or not, per the handler) without touching the builder,
and the seekable step changes nothing. -/
theorem step_correspond_other (s : List Byte) (h : Fork → Bool)
    (stt : StreamState) (sst : SeekState) (seg : Segment) (st' : StreamState)
    (hb : stt.builder = sst.builder)
    (hcd : captured .data stt.log = Option.map (entryBytes s) sst.data_fork)
    (hcr : captured .rsrc stt.log = Option.map (entryBytes s) sst.rsrc_fork)
    (hle : stt.count ≤ seg.offset)
    (hwrap : seg.wrap ((s.drop seg.offset).take seg.len) = .ok (.other seg.toEntry, 0))
    (hstep : streamStep s h stt seg = .ok st') :
    seekStep s sst seg = .ok sst
      ∧ st'.builder = sst.builder
      ∧ captured .data st'.log = Option.map (entryBytes s) sst.data_fork
      ∧ captured .rsrc st'.log = Option.map (entryBytes s) sst.rsrc_fork := by
  have hseek : seekStep s sst seg = .ok sst := by
    simp only [seekStep, hwrap]
  simp only [streamStep, skip_dest s stt.count seg.offset hle,
    drop_skip_dest s stt.count seg.offset hle, hwrap, Segment.toEntry] at hstep
  by_cases hh : h (.other seg.id)
  · rw [if_pos hh] at hstep
    injection hstep with hst
    subst hst
    refine ⟨hseek, hb, ?_, ?_⟩
    · rw [captured_append_ne _ _ _ _ (by simp)]
      exact hcd
    · rw [captured_append_ne _ _ _ _ (by simp)]
      exact hcr
  · rw [if_neg hh] at hstep
    injection hstep with hst
    subst hst
    exact ⟨hseek, hb, hcd, hcr⟩

/-- One segment of the two traversals in lockstep: when the streaming
step succeeds (with a handler that accepts both named forks), the
seekable step succeeds, applies the same metadata update, the capture
sinks match the recorded fork ranges read back from the source, and the
fork slots change only for the fork ids. -/
theorem step_correspond (s : List Byte) (h : Fork → Bool)
    (hd : h .data = true) (hr : h .rsrc = true)
    (stt : StreamState) (sst : SeekState) (seg : Segment) (st' : StreamState)
    (hb : stt.builder = sst.builder)
    (hcd : captured .data stt.log = Option.map (entryBytes s) sst.data_fork)
    (hcr : captured .rsrc stt.log = Option.map (entryBytes s) sst.rsrc_fork)
    (hstep : streamStep s h stt seg = .ok st')
    (hd1 : seg.id = 1 → sst.data_fork = none)
    (hr2 : seg.id = 2 → sst.rsrc_fork = none) :
    ∃ sst', seekStep s sst seg = .ok sst'
      ∧ st'.builder = sst'.builder
      ∧ captured .data st'.log = Option.map (entryBytes s) sst'.data_fork
      ∧ captured .rsrc st'.log = Option.map (entryBytes s) sst'.rsrc_fork
      ∧ (seg.id ≠ 1 → sst'.data_fork = sst.data_fork)
      ∧ (seg.id ≠ 2 → sst'.rsrc_fork = sst.rsrc_fork) := by
  by_cases hle : stt.count ≤ seg.offset
  case neg =>
    exfalso
    have herr : streamStep s h stt seg = .error .unsupported := by
      unfold streamStep
      have hskip : CountingReader.skip_to { stream := s, count := stt.count }
          seg.offset = .error .unsupported := by
        unfold CountingReader.skip_to
        rw [if_pos (by show seg.offset < stt.count; omega)]
      rw [hskip]
    rw [herr] at hstep
    simp at hstep
  case pos =>
  cases htype : seg.entry_type with
  | none =>
    obtain ⟨hseek, h1, h2, h3⟩ := step_correspond_other s h stt sst seg st'
      hb hcd hcr hle (by simp only [Segment.wrap, htype]) hstep
    exact ⟨sst, hseek, h1, h2, h3, fun _ => rfl, fun _ => rfl⟩
  | some et =>
    have hc := try_from_code seg.id et htype
    simp only [EntryType.code] at hc
    cases et with
    | iconBW =>
      obtain ⟨hseek, h1, h2, h3⟩ := step_correspond_other s h stt sst seg st'
        hb hcd hcr hle (by simp only [Segment.wrap, htype]) hstep
      exact ⟨sst, hseek, h1, h2, h3, fun _ => rfl, fun _ => rfl⟩
    | iconColor =>
      obtain ⟨hseek, h1, h2, h3⟩ := step_correspond_other s h stt sst seg st'
        hb hcd hcr hle (by simp only [Segment.wrap, htype]) hstep
      exact ⟨sst, hseek, h1, h2, h3, fun _ => rfl, fun _ => rfl⟩
    | proDOSFileInfo =>
      obtain ⟨hseek, h1, h2, h3⟩ := step_correspond_other s h stt sst seg st'
        hb hcd hcr hle (by simp only [Segment.wrap, htype]) hstep
      exact ⟨sst, hseek, h1, h2, h3, fun _ => rfl, fun _ => rfl⟩
    | msDOSFileInfo =>
      obtain ⟨hseek, h1, h2, h3⟩ := step_correspond_other s h stt sst seg st'
        hb hcd hcr hle (by simp only [Segment.wrap, htype]) hstep
      exact ⟨sst, hseek, h1, h2, h3, fun _ => rfl, fun _ => rfl⟩
    | afpShortName =>
      obtain ⟨hseek, h1, h2, h3⟩ := step_correspond_other s h stt sst seg st'
        hb hcd hcr hle (by simp only [Segment.wrap, htype]) hstep
      exact ⟨sst, hseek, h1, h2, h3, fun _ => rfl, fun _ => rfl⟩
    | afpFileInfo =>
      obtain ⟨hseek, h1, h2, h3⟩ := step_correspond_other s h stt sst seg st'
        hb hcd hcr hle (by simp only [Segment.wrap, htype]) hstep
      exact ⟨sst, hseek, h1, h2, h3, fun _ => rfl, fun _ => rfl⟩
    | afpDirectoryID =>
      obtain ⟨hseek, h1, h2, h3⟩ := step_correspond_other s h stt sst seg st'
        hb hcd hcr hle (by simp only [Segment.wrap, htype]) hstep
      exact ⟨sst, hseek, h1, h2, h3, fun _ => rfl, fun _ => rfl⟩
    | realName =>
      simp only [streamStep, skip_dest s stt.count seg.offset hle,
        drop_skip_dest s stt.count seg.offset hle, Segment.wrap, htype] at hstep
      injection hstep with hst
      subst hst
      refine ⟨{ sst with builder := { sst.builder with
          name := some ((s.drop seg.offset).take seg.len) } },
        by simp only [seekStep, Segment.wrap, htype], ?_, hcd, hcr,
        fun _ => rfl, fun _ => rfl⟩
      simp only [hb]
    | comment =>
      simp only [streamStep, skip_dest s stt.count seg.offset hle,
        drop_skip_dest s stt.count seg.offset hle, Segment.wrap, htype] at hstep
      injection hstep with hst
      subst hst
      refine ⟨{ sst with builder := { sst.builder with
          comment := some ((s.drop seg.offset).take seg.len) } },
        by simp only [seekStep, Segment.wrap, htype], ?_, hcd, hcr,
        fun _ => rfl, fun _ => rfl⟩
      simp only [hb]
    | finderInfo =>
      simp only [streamStep, skip_dest s stt.count seg.offset hle,
        drop_skip_dest s stt.count seg.offset hle, Segment.wrap, htype] at hstep
      by_cases hlen16 : 16 ≤ ((s.drop seg.offset).take seg.len).length
      · rw [if_pos hlen16] at hstep
        injection hstep with hst
        subst hst
        refine ⟨{ sst with builder := { sst.builder with
            finf := some (FinderInfo.decode (((s.drop seg.offset).take seg.len).take 16)) } },
          ?_, ?_, hcd, hcr, fun _ => rfl, fun _ => rfl⟩
        · simp only [seekStep, Segment.wrap, htype]
          rw [if_pos hlen16]
        · simp only [hb]
      · rw [if_neg hlen16] at hstep
        simp at hstep
    | fileDates =>
      simp only [streamStep, skip_dest s stt.count seg.offset hle,
        drop_skip_dest s stt.count seg.offset hle, Segment.wrap, htype] at hstep
      by_cases hlen16 : 16 ≤ ((s.drop seg.offset).take seg.len).length
      · rw [if_pos hlen16] at hstep
        injection hstep with hst
        subst hst
        refine ⟨{ sst with builder := { sst.builder with
            date := some (Dates.decode (((s.drop seg.offset).take seg.len).take 16)) } },
          ?_, ?_, hcd, hcr, fun _ => rfl, fun _ => rfl⟩
        · simp only [seekStep, Segment.wrap, htype]
          rw [if_pos hlen16]
        · simp only [hb]
      · rw [if_neg hlen16] at hstep
        simp at hstep
    | macintoshFileInfo =>
      simp only [streamStep, skip_dest s stt.count seg.offset hle,
        drop_skip_dest s stt.count seg.offset hle, Segment.wrap, htype] at hstep
      by_cases hlen4 : 4 ≤ ((s.drop seg.offset).take seg.len).length
      · rw [if_pos hlen4] at hstep
        injection hstep with hst
        subst hst
        refine ⟨{ sst with builder := { sst.builder with
            minf := some (beNat (((s.drop seg.offset).take seg.len).take 4)) } },
          ?_, ?_, hcd, hcr, fun _ => rfl, fun _ => rfl⟩
        · simp only [seekStep, Segment.wrap, htype]
          rw [if_pos hlen4]
        · simp only [hb]
      · rw [if_neg hlen4] at hstep
        simp at hstep
    | dataFork =>
      simp only [streamStep, skip_dest s stt.count seg.offset hle,
        drop_skip_dest s stt.count seg.offset hle, Segment.wrap, htype] at hstep
      rw [if_pos hd] at hstep
      injection hstep with hst
      subst hst
      have hnone : sst.data_fork = none := hd1 hc
      have hcdnone : captured .data stt.log = none := by
        rw [hcd, hnone]
        rfl
      refine ⟨{ sst with data_fork := some seg.toEntry },
        by simp only [seekStep, Segment.wrap, htype], hb, ?_, ?_,
        fun hne => absurd hc hne, fun _ => rfl⟩
      · rw [captured_append_self_of_none _ _ _ hcdnone]
        simp [entryBytes, Segment.toEntry]
      · rw [captured_append_ne _ _ _ _ (by simp)]
        exact hcr
    | resourceFork =>
      simp only [streamStep, skip_dest s stt.count seg.offset hle,
        drop_skip_dest s stt.count seg.offset hle, Segment.wrap, htype] at hstep
      rw [if_pos hr] at hstep
      injection hstep with hst
      subst hst
      have hnone : sst.rsrc_fork = none := hr2 hc
      have hcrnone : captured .rsrc stt.log = none := by
        rw [hcr, hnone]
        rfl
      refine ⟨{ sst with rsrc_fork := some seg.toEntry },
        by simp only [seekStep, Segment.wrap, htype], hb, ?_, ?_,
        fun _ => rfl, fun hne => absurd hc hne⟩
      · rw [captured_append_ne _ _ _ _ (by simp)]
        exact hcd
      · rw [captured_append_self_of_none _ _ _ hcrnone]
        simp [entryBytes, Segment.toEntry]

/-- The two traversals in lockstep over a whole segment list, provided
each fork id can still be claimed at most once in total. -/
theorem runSegments_correspond (s : List Byte) (h : Fork → Bool)
    (hd : h .data = true) (hr : h .rsrc = true) :
    ∀ (segs : List Segment) (stt : StreamState) (sst : SeekState) (out : StreamState),
      stt.builder = sst.builder →
      captured .data stt.log = Option.map (entryBytes s) sst.data_fork →
      captured .rsrc stt.log = Option.map (entryBytes s) sst.rsrc_fork →
      segs.countP (fun seg => seg.id == 1) + forkFlag sst.data_fork ≤ 1 →
      segs.countP (fun seg => seg.id == 2) + forkFlag sst.rsrc_fork ≤ 1 →
      runSegments s h stt segs = .ok out →
      ∃ sout, runSeekSegments s sst segs = .ok sout
        ∧ out.builder = sout.builder
        ∧ captured .data out.log = Option.map (entryBytes s) sout.data_fork
        ∧ captured .rsrc out.log = Option.map (entryBytes s) sout.rsrc_fork := by
  intro segs
  induction segs with
  | nil =>
    intro stt sst out hb hcd hcr _ _ hrun
    simp only [runSegments] at hrun
    injection hrun with he
    subst he
    exact ⟨sst, rfl, hb, hcd, hcr⟩
  | cons seg rest ih =>
    intro stt sst out hb hcd hcr hc1 hc2 hrun
    simp only [runSegments] at hrun
    cases hstep : streamStep s h stt seg with
    | error e =>
      rw [hstep] at hrun
      simp at hrun
    | ok st' =>
      rw [hstep] at hrun
      rw [List.countP_cons] at hc1 hc2
      have hd1 : seg.id = 1 → sst.data_fork = none := by
        intro hseg1
        apply forkFlag_eq_zero
        simp only [hseg1, beq_self_eq_true, if_true] at hc1
        omega
      have hr2 : seg.id = 2 → sst.rsrc_fork = none := by
        intro hseg2
        apply forkFlag_eq_zero
        simp only [hseg2, beq_self_eq_true, if_true] at hc2
        omega
      obtain ⟨sst', hseek, hb', hcd', hcr', hkeep1, hkeep2⟩ :=
        step_correspond s h hd hr stt sst seg st' hb hcd hcr hstep hd1 hr2
      have hcount1 : rest.countP (fun seg => seg.id == 1)
          + forkFlag sst'.data_fork ≤ 1 := by
        by_cases hseg1 : seg.id = 1
        · have hflag := forkFlag_le_one sst'.data_fork
          simp only [hseg1, beq_self_eq_true, if_true] at hc1
          omega
        · rw [hkeep1 hseg1]
          simp only [beq_iff_eq, if_neg hseg1] at hc1
          omega
      have hcount2 : rest.countP (fun seg => seg.id == 2)
          + forkFlag sst'.rsrc_fork ≤ 1 := by
        by_cases hseg2 : seg.id = 2
        · have hflag := forkFlag_le_one sst'.rsrc_fork
          simp only [hseg2, beq_self_eq_true, if_true] at hc2
          omega
        · rw [hkeep2 hseg2]
          simp only [beq_iff_eq, if_neg hseg2] at hc2
          omega
      obtain ⟨sout, hrunq, hbF, hcdF, hcrF⟩ :=
        ih st' sst' out hb' hcd' hcr' hcount1 hcount2 hrun
      refine ⟨sout, ?_, hbF, hcdF, hcrF⟩
      simp only [runSeekSegments]
      rw [hseek]
      exact hrunq

/-- C1.  On any container that both engines decode successfully, the
streaming engine (with a handler that captures the data and resource
forks) and the seekable engine (reading both forks back after the pass)
agree on the format tag, real name, comment, dates, Finder info and Mac
info, and the captured fork bytes equal the fork bytes read back from
the seekable archive, byte for byte. -/
theorem claim1_engine_equivalence (s : List Byte) (h : Fork → Bool)
    (a : Archive) (log : List (Fork × List Byte)) (sa : SeekableArchive)
    (hd : h .data = true) (hr : h .rsrc = true)
    (hp : parse s h = .ok (a, log)) (hq : parse_seekable s = .ok sa) :
    a.format = sa.format ∧ a.name = sa.name ∧ a.comment = sa.comment
    ∧ a.date = sa.date ∧ a.finf = sa.finf ∧ a.minf = sa.minf
    ∧ captured .data log = SeekableArchive.data_fork_bytes s sa
    ∧ captured .rsrc log = SeekableArchive.rsrc_fork_bytes s sa := by
  unfold parse at hp
  unfold parse_seekable at hq
  split at hp
  next e heq => simp at hp
  next ar heq =>
  split at hp
  next e hrun => simp at hp
  next stF hrun =>
  split at hp
  case h_2 => simp at hp
  rename_i a' hbuild
  injection hp with hpr
  injection hpr with ha hlog
  subst ha
  subst hlog
  have hpair := streaming_pairwise s ar heq
  have hcount1 : (segments_by_offset ar.segments).countP
      (fun seg => seg.id == 1) + forkFlag (none : Option Entry) ≤ 1 := by
    rw [(segments_by_offset_perm ar.segments).countP_eq]
    have := countP_le_one_of_pairwise ar.segments 1 hpair
    simp only [forkFlag]
    omega
  have hcount2 : (segments_by_offset ar.segments).countP
      (fun seg => seg.id == 2) + forkFlag (none : Option Entry) ≤ 1 := by
    rw [(segments_by_offset_perm ar.segments).countP_eq]
    have := countP_le_one_of_pairwise ar.segments 2 hpair
    simp only [forkFlag]
    omega
  obtain ⟨sout, hrunq, hbF, hcdF, hcrF⟩ :=
    runSegments_correspond s h hd hr (segments_by_offset ar.segments)
      { count := ar.reader.count, builder := initBuilder, log := [] }
      { builder := initBuilder, data_fork := none, rsrc_fork := none } stF
      rfl rfl rfl hcount1 hcount2 hrun
  split at hq
  next e heq2 =>
    rw [heq] at heq2
    simp at heq2
  next ar2 heq2 =>
  have har : ar2 = ar := by
    rw [heq] at heq2
    injection heq2 with h2
    exact h2.symm
  subst har
  split at hq
  next e hrunq2 =>
    rw [hrunq] at hrunq2
    simp at hrunq2
  next sout2 hrunq2 =>
  have hs2 : sout2 = sout := by
    rw [hrunq] at hrunq2
    injection hrunq2 with h2
    exact h2.symm
  subst hs2
  split at hq
  case h_2 =>
    rename_i hbuild2
    rw [← hbF, hbuild] at hbuild2
    simp at hbuild2
  rename_i a2 hbuild2
  have ha2 : a2 = a' := by
    rw [← hbF] at hbuild2
    rw [hbuild] at hbuild2
    injection hbuild2 with h2
    exact h2.symm
  subst ha2
  injection hq with hsa
  subst hsa
  exact ⟨rfl, rfl, rfl, rfl, rfl, rfl, hcdF, hcrF⟩

/-- C1 witness: on the sample container both engines succeed; the
metadata agree and the captured data fork [10, 11, 12] and resource
fork [13, 14] equal what the seekable archive reads back. -/
theorem claim1_witness :
    sampleArchive.format = sampleSeekable.format
    ∧ sampleArchive.name = sampleSeekable.name
    ∧ sampleArchive.comment = sampleSeekable.comment
    ∧ sampleArchive.date = sampleSeekable.date
    ∧ sampleArchive.finf = sampleSeekable.finf
    ∧ sampleArchive.minf = sampleSeekable.minf
    ∧ captured .data sampleLog =
      SeekableArchive.data_fork_bytes sampleContainer sampleSeekable
    ∧ captured .rsrc sampleLog =
      SeekableArchive.rsrc_fork_bytes sampleContainer sampleSeekable :=
  claim1_engine_equivalence sampleContainer captureAll sampleArchive sampleLog
    sampleSeekable rfl rfl rfl rfl

end Forkcordion
